import Mathlib

/-!
Shallow embedding of the musical_markov repository (src/model.py, src/seed.py,
src/make_music.py) and proofs about its specification claims.

The relational tables of model.py are embedded as lists keyed by content:
every table there deduplicates by content (via the filter_by/one upsert
pattern), so autoincrement ids are in bijection with row content and are
dropped from the embedding.  Durations are rationals (the spec calls them
non-negative rationals rendered as floats).
-/

/-- A musical event as music21 hands it to seed.py: an optional pitch
(name, octave) — absent for rests — and a length in quarter notes. -/
structure M21Event where
  pitch : Option (String × Int)
  quarterLength : ℚ
deriving DecidableEq

/-- Content of a row of the notes table (model.py, class Note): pitch name and
octave are null for rests; all three fields, duration included, are null only
for the terminal null note made by seed.get_nullnote_id. -/
structure NoteContent where
  note_name : Option String
  octave : Option Int
  quarter_notes : Option ℚ
deriving DecidableEq

/-- The null note created by seed.get_nullnote_id: a Note row with no name,
octave or duration, used to mark the end of an ingested sequence. -/
def nullNote : NoteContent := ⟨none, none, none⟩

/-- The content identity of a chains-table row (model.py, class Chain):
the ordered pair of its two note references. -/
abbrev ChainKey := NoteContent × NoteContent

/-- A row of the nextnote table (model.py, class NextNote): a chain, a
following note, and an integer weight (column default 1). -/
structure NNRow where
  chain : ChainKey
  note : NoteContent
  weight : Nat
deriving DecidableEq

/-- A row of the tunes table (model.py, class Tune): name, tempo (text and
seconds per quarter) and instrument name.  Tune.add never dedups, so rows are
identified by position in the list (the autoincrement id). -/
structure TuneRow where
  tune_name : String
  tempo : String × ℚ
  instrument : String
deriving DecidableEq

/-- A row of the tunenotes table (model.py, class TuneNote): tune id (position
in the tunes list), note, and position of the note within the tune. -/
structure TuneNoteRow where
  tune_id : Nat
  note : NoteContent
  index : Nat
deriving DecidableEq

/-- The database state: one field per table of model.py. -/
structure DB where
  durations : List ℚ
  notes : List NoteContent
  tempi : List (String × ℚ)
  instruments : List String
  tunes : List TuneRow
  tunenotes : List TuneNoteRow
  chains : List ChainKey
  nextnotes : List NNRow
deriving DecidableEq

/-- The empty database (db.create_all on a fresh store). -/
def emptyDB : DB := ⟨[], [], [], [], [], [], [], []⟩

/-- The database after seed.py's main has run get_nullnote_id: the null note
row exists, everything else is empty. -/
def initDB : DB := ⟨[], [nullNote], [], [], [], [], [], []⟩

/-- Music21AnalogMixin.add (model.py lines 21-33): look the row up by content
(filter_by + one); if absent, create it.  `.one` assumes at most one row
matches; the tables built by these operations keep at most one row per
content, and the embedding returns the table unchanged on a hit. -/
def listUpsert {α : Type} [DecidableEq α] (l : List α) (x : α) : List α :=
  if x ∈ l then l else l ++ [x]

/-- Duration.add (model.py lines 45-58): upsert a quarter-note length.
The Fraction-to-float conversion is the identity on the rational value. -/
def duration_add (q : ℚ) (db : DB) : DB :=
  { db with durations := listUpsert db.durations q }

/-- The Note content that Note.add builds from a music21 note (model.py
lines 101-116): pitch name and octave when the event has a pitch, null
otherwise (rests raise AttributeError on .pitch), plus the duration. -/
def noteContentOf (e : M21Event) : NoteContent :=
  ⟨e.pitch.map Prod.fst, e.pitch.map Prod.snd, some e.quarterLength⟩

/-- Note.add (model.py lines 90-122): add the duration, upsert the note by
content.  Line 120 constructs TuneNote(tune_id, note_id, index) but never
passes it to db.session.add, so the tunenotes table is left unchanged and the
constructed row is discarded; the tuneIdx and idx arguments are therefore
unused beyond recording the call shape.  The function returns the note, whose
content is noteContentOf e. -/
def note_add (e : M21Event) (tuneIdx idx : Nat) (db : DB) : DB :=
  let db1 := duration_add e.quarterLength db
  let _tunenote : TuneNoteRow := ⟨tuneIdx, noteContentOf e, idx⟩
  { db1 with notes := listUpsert db1.notes (noteContentOf e) }

/-- Tempo.add (model.py lines 157-171): upsert (text, seconds per quarter). -/
def tempo_add (t : String × ℚ) (db : DB) : DB :=
  { db with tempi := listUpsert db.tempi t }

/-- Instrument.add (model.py lines 189-199): upsert by instrument name.  The
definition takes exactly one argument besides the class. -/
def instrument_add (name : String) (db : DB) : DB :=
  { db with instruments := listUpsert db.instruments name }

/-- Tune.add (model.py lines 251-261): always creates a fresh row (no dedup);
the new row's id is its position, db.tunes.length before the append. -/
def tune_add (name : String) (t : String × ℚ) (inst : String) (db : DB) : DB :=
  { db with tunes := db.tunes ++ [⟨name, t, inst⟩] }

/-- Chain.add (model.py lines 279-287): upsert the ordered pair (a, b); the
returned chain's content identity is the pair itself. -/
def chain_add (a b : NoteContent) (db : DB) : DB :=
  { db with chains := listUpsert db.chains (a, b) }

/-- NextNote.add (model.py lines 306-326) acting on the nextnote table: if a
row for (chain, note) exists, add 1 to its weight; else append a new row whose
weight is the column default 1.  `.one` assumes at most one matching row; the
embedding increments the first match. -/
def nextnote_add : List NNRow → ChainKey → NoteContent → List NNRow
  | [], ck, n => [⟨ck, n, 1⟩]
  | r :: rs, ck, n =>
    if r.chain = ck ∧ r.note = n then ⟨ck, n, r.weight + 1⟩ :: rs
    else r :: nextnote_add rs ck n

/-- Number of nextnote rows for a given (chain, note) pair. -/
def rowCount : List NNRow → ChainKey → NoteContent → Nat
  | [], _, _ => 0
  | r :: rs, ck, n => (if r.chain = ck ∧ r.note = n then 1 else 0) + rowCount rs ck n

/-- Total weight of the nextnote rows for a given (chain, note) pair; with at
most one row per pair this is the weight of that row, and 0 when absent. -/
def weightSum : List NNRow → ChainKey → NoteContent → Nat
  | [], _, _ => 0
  | r :: rs, ck, n => (if r.chain = ck ∧ r.note = n then r.weight else 0) + weightSum rs ck n

/-- NextNote.add iterated N times on the same (chain, note) pair. -/
def nextnote_addN : Nat → List NNRow → ChainKey → NoteContent → List NNRow
  | 0, t, _, _ => t
  | k + 1, t, ck, n => nextnote_add (nextnote_addN k t ck n) ck n

/-- A python-level exception surfaced by the embedded code.  The first
constructors model builtin exceptions the source can raise; the last two are
the typed errors named by the specification, which no source function ever
constructs — they exist so statements can compare against them. -/
inductive PyErr where
  | keyError
  | typeError
  | valueError
  | indexError
  | noCommonInstrument
  | emptyGraph
deriving DecidableEq

/-- A score as markovify_score consumes it: the notesAndRests event list, the
instrument name reported by score.getInstrument, and the tempo marking. -/
structure Score where
  notesAndRests : List M21Event
  instrumentName : String
  tempo : String × ℚ
deriving DecidableEq

/-- The markovification loop of seed.markovify_score (lines 73-98): walk the
events from the third on, skipping zero-duration ones; for each survivor make
the chain for the current (note_a, note_b), add the note, and register the
next-note edge; finally register one edge from the last pair to the null
note.  The idx argument is the enumerate counter, which advances on skipped
events too. -/
def markovLoop (tuneIdx : Nat) : List M21Event → NoteContent → NoteContent → Nat → DB → DB
  | [], a, b, _, db =>
    let db1 := chain_add a b db
    { db1 with nextnotes := nextnote_add db1.nextnotes (a, b) nullNote }
  | e :: rest, a, b, idx, db =>
    if e.quarterLength = 0 then markovLoop tuneIdx rest a b (idx + 1) db
    else
      let db1 := chain_add a b db
      let db2 := note_add e tuneIdx (idx + 2) db1
      let db3 := { db2 with nextnotes := nextnote_add db2.nextnotes (a, b) (noteContentOf e) }
      markovLoop tuneIdx rest b (noteContentOf e) (idx + 1) db3

/-- The body of seed.markovify_score (lines 53-106) as it executes when the
instrument is resolved through Instrument.add's declared one-argument
signature: bail on an empty score, add tempo, instrument and tune, take the
first two events unconditionally as the initial pair, run the loop.  A score
with exactly one event reaches part_notes[1] and raises IndexError. -/
def markovify_body (filepath : String) (score : Score) (instName : String) (db : DB) :
    Except PyErr DB :=
  if score.notesAndRests.length = 0 then .ok db
  else
    let db1 := tempo_add score.tempo db
    let db2 := instrument_add instName db1
    let tuneIdx := db2.tunes.length
    let db3 := tune_add filepath score.tempo instName db2
    match score.notesAndRests with
    | e0 :: e1 :: rest =>
      let db4 := note_add e0 tuneIdx 0 db3
      let db5 := note_add e1 tuneIdx 1 db4
      .ok (markovLoop tuneIdx rest (noteContentOf e0) (noteContentOf e1) 0 db5)
    | _ => .error .indexError

/-- A dynamic call to the classmethod Instrument.add with a list of positional
arguments: its definition (model.py line 190) accepts exactly one argument
besides the class, so python raises TypeError for any other count. -/
def instrument_add_call (args : List String) (db : DB) : Except PyErr DB :=
  match args with
  | [name] => .ok (instrument_add name db)
  | _ => .error .typeError

/-- seed.markovify_score, faithfully: line 63 calls
Instrument.add(score.getInstrument(), default_instrument) with two positional
arguments, so for a nonempty score the call raises TypeError before the tune
or any note is created. -/
def markovify_score (filepath : String) (score : Score) (default_instrument : String)
    (db : DB) : Except PyErr DB :=
  if score.notesAndRests.length = 0 then .ok db
  else
    let db1 := tempo_add score.tempo db
    match instrument_add_call [score.instrumentName, default_instrument] db1 with
    | .error e => .error e
    | .ok db2 =>
      let tuneIdx := db2.tunes.length
      let db3 := tune_add filepath score.tempo score.instrumentName db2
      match score.notesAndRests with
      | e0 :: e1 :: rest =>
        let db4 := note_add e0 tuneIdx 0 db3
        let db5 := note_add e1 tuneIdx 1 db4
        .ok (markovLoop tuneIdx rest (noteContentOf e0) (noteContentOf e1) 0 db5)
      | _ => .error .indexError

/-- Unwrap an ingestion result, falling back to the given database on error. -/
def getOk (r : Except PyErr DB) (fallback : DB) : DB :=
  match r with
  | .ok d => d
  | .error _ => fallback

/-! ## make_music.py: instrument selection and the generating walk -/

/-- Fallback for an out-of-range tune id; never reached on databases built by
ingestion, where every tunenotes row points into the tunes list. -/
def defaultTune : TuneRow := ⟨"", ("", 0), ""⟩

/-- The instrument set of one note (make_music.py lines 19-26): the set of the
instruments of every tune that contains the note.  The python set is embedded
as a deduplicated list; only membership matters below. -/
def instSet (db : DB) (n : NoteContent) : List String :=
  ((db.tunenotes.filter (fun r => decide (r.note = n))).map
    (fun r => (db.tunes.getD r.tune_id defaultTune).instrument)).dedup

/-- The intersection of the two instrument sets (make_music.py line 29). -/
def commonList (db : DB) (a b : NoteContent) : List String :=
  (instSet db a).filter (fun s => decide (s ∈ instSet db b))

/-- make_music.get_common_m21_instrument (lines 14-31): intersect the two
instrument sets and call set.pop on the result.  set.pop raises the builtin
KeyError when the set is empty and otherwise returns an arbitrary element,
embedded as the first of the intersection list. -/
def get_common_m21_instrument (db : DB) (a b : NoteContent) : Except PyErr String :=
  match commonList db a b with
  | [] => .error .keyError
  | i :: _ => .ok i

/-- The (note, weight) pairs of the current chain's outgoing edges
(make_music.py lines 60-62). -/
def noteChoices (db : DB) (ck : ChainKey) : List (NoteContent × Nat) :=
  (db.nextnotes.filter (fun r => decide (r.chain = ck))).map (fun r => (r.note, r.weight))

/-- make_music.py line 72: the weighted choice list with every note spelled
out `weight` times. -/
def weightedChoices : List (NoteContent × Nat) → List NoteContent
  | [] => []
  | (n, w) :: rest => List.replicate w n ++ weightedChoices rest

/-- Occurrences of a note in a list (used to state what the weighted choice
list contains). -/
def countNote : List NoteContent → NoteContent → Nat
  | [], _ => 0
  | x :: xs, n => (if x = n then 1 else 0) + countNote xs n

/-- Why a drawn note stops the walk (make_music.py lines 81-96): the null
note (end of a tune), a rest of four or more quarter notes, or any note of
four or more quarter notes.  attrFault marks a note with a pitch name but no
duration row, on which line 87 would raise AttributeError; ingestion never
stores such a note. -/
inductive WalkStop where
  | endOfTune
  | longRest
  | wholeNote
  | attrFault
deriving DecidableEq

/-- Classify a drawn note following the branch order of make_music.py lines
81-96: none means the walk appends the note and continues. -/
def classifyNext (n : NoteContent) : Option WalkStop :=
  if n.note_name = none ∧ n.quarter_notes = none then some .endOfTune
  else
    match n.quarter_notes with
    | none => some .attrFault
    | some d =>
      if n.note_name = none ∧ 4 ≤ d then some .longRest
      else if 4 ≤ d then some .wholeNote
      else none

/-- random.choice over the weighted choice list, fed by one draw k of the
random stream: uniform selection of the index k mod length.  The default is
never used: the list is nonempty whenever the walk consults it. -/
def drawNote (db : DB) (ck : ChainKey) (k : Nat) : NoteContent :=
  (weightedChoices (noteChoices db ck)).getD
    (k % (weightedChoices (noteChoices db ck)).length) nullNote

/-- The while loop of make_music.make_markov (lines 58-111): stop when the
current chain has no outgoing edges, draw a weighted next note, stop on a
stopping note (nothing appended), otherwise append it, slide the pair, and
stop when no chain row exists for the new pair.  rnd is the stream of random
draws, consumed one per iteration; fuel bounds the unrolling of the unbounded
while loop, and exhausting it returns the output built so far. -/
def markovWalk : Nat → DB → ChainKey → (Nat → Nat) → Nat → List NoteContent → List NoteContent
  | 0, _, _, _, _, acc => acc
  | fuel + 1, db, ck, rnd, t, acc =>
    if (noteChoices db ck).length = 0 then acc
    else if (weightedChoices (noteChoices db ck)).length = 0 then acc
    else
      match classifyNext (drawNote db ck (rnd t)) with
      | some _ => acc
      | none =>
        if (ck.2, drawNote db ck (rnd t)) ∈ db.chains then
          markovWalk fuel db (ck.2, drawNote db ck (rnd t)) rnd (t + 1)
            (acc ++ [drawNote db ck (rnd t)])
        else acc ++ [drawNote db ck (rnd t)]

/-- make_music.make_markov entry (lines 33-56): pick a random starting chain
with random.randint(1, count) — which raises the builtin ValueError when the
chain count is 0 — resolve the common instrument of its two notes, emit them,
and run the walk. -/
def make_markov (db : DB) (startPick : Nat) (rnd : Nat → Nat) (fuel : Nat) :
    Except PyErr (List NoteContent) :=
  if db.chains.length = 0 then .error .valueError
  else
    let chain := db.chains.getD (startPick % db.chains.length) (nullNote, nullNote)
    match get_common_m21_instrument db chain.1 chain.2 with
    | .error e => .error e
    | .ok _ => .ok (markovWalk fuel db chain rnd 0 [chain.1, chain.2])

/-- Concrete notes used in witnesses and counterexamples. -/
def ncX : NoteContent := ⟨some "X", some 4, some 1⟩

def ncY : NoteContent := ⟨some "Y", some 4, some 1⟩

/-- The database of the spec's instrument example: note ncX belongs to tunes
with instruments Piano and Violin, note ncY to tunes with Violin and Flute. -/
def violinDB : DB :=
  { emptyDB with
    tunes := [⟨"t1", ("T", 1), "Piano"⟩, ⟨"t2", ("T", 1), "Violin"⟩, ⟨"t3", ("T", 1), "Flute"⟩],
    tunenotes := [⟨0, ncX, 0⟩, ⟨1, ncX, 1⟩, ⟨1, ncY, 0⟩, ⟨2, ncY, 1⟩] }


/-! ## Ingestion as seen through the Markov graph -/

/-- The surviving events of the markovification loop: seed.py line 76 skips
events of zero duration. -/
def survivors : List M21Event → List M21Event
  | [] => []
  | e :: rest => if e.quarterLength = 0 then survivors rest else e :: survivors rest

/-- The (state, next) observations the loop registers, given the initial pair
and the surviving loop notes, closed by the final null-note edge of seed.py
lines 93-96. -/
def obsAux (a b : NoteContent) : List NoteContent → List (ChainKey × NoteContent)
  | [] => [((a, b), nullNote)]
  | c :: cs => ((a, b), c) :: obsAux b c cs

/-- Occurrences of one (state, next) pair in an observation list. -/
def countPair : List (ChainKey × NoteContent) → ChainKey → NoteContent → Nat
  | [], _, _ => 0
  | p :: ps, ck, n => (if ck = p.1 ∧ n = p.2 then 1 else 0) + countPair ps ck n

/-- The Markov graph carried by a database, read by content: which notes,
durations and states exist, and the weight of every (state, next) edge. -/
structure GraphView where
  note : NoteContent → Prop
  dur : ℚ → Prop
  state : ChainKey → Prop
  weight : ChainKey → NoteContent → Nat

/-- Read the graph out of a database state. -/
def DB.graphView (db : DB) : GraphView :=
  ⟨fun n => n ∈ db.notes, fun q => q ∈ db.durations, fun ck => ck ∈ db.chains,
   fun ck n => weightSum db.nextnotes ck n⟩

/-- One ingestion work item of seed.load_data: a file path, its parsed score,
and the instrument name the ingestion resolves. -/
structure SeedJob where
  filepath : String
  score : Score
  inst : String
deriving DecidableEq

/-- Run one ingestion work item. -/
def runJob (j : SeedJob) (db : DB) : Except PyErr DB :=
  markovify_body j.filepath j.score j.inst db

/-- The notes ingesting one score upserts: the first two events
unconditionally, then the surviving loop events. -/
def scoreNotes (sc : Score) : List NoteContent :=
  match sc.notesAndRests with
  | e0 :: e1 :: rest =>
    noteContentOf e0 :: noteContentOf e1 :: (survivors rest).map noteContentOf
  | _ => []

/-- The durations ingesting one score upserts. -/
def scoreDurs (sc : Score) : List ℚ :=
  match sc.notesAndRests with
  | e0 :: e1 :: rest =>
    e0.quarterLength :: e1.quarterLength :: (survivors rest).map M21Event.quarterLength
  | _ => []

/-- The (state, next) observations ingesting one score registers. -/
def scoreObs (sc : Score) : List (ChainKey × NoteContent) :=
  match sc.notesAndRests with
  | e0 :: e1 :: rest =>
    obsAux (noteContentOf e0) (noteContentOf e1) ((survivors rest).map noteContentOf)
  | _ => []

/-- seed.load_data's loop over scores, each ingested via markovify_body; a
failure aborts the run. -/
def ingest_scores : List SeedJob → DB → Except PyErr DB
  | [], db => .ok db
  | j :: js, db =>
    match runJob j db with
    | .error e => .error e
    | .ok db1 => ingest_scores js db1

/-- Concrete events for witnesses and counterexamples. -/
def evA : M21Event := ⟨some ("A", 4), 1⟩

def evB : M21Event := ⟨some ("B", 4), 1⟩

def evC : M21Event := ⟨some ("C", 4), 1⟩

/-- A zero-duration rest. -/
def zeroRest : M21Event := ⟨none, 0⟩

def scoreABC : Score := ⟨[evA, evB, evC], "Piano", ("T", 1)⟩

/-- scoreABC with a zero-duration event in front. -/
def scoreZAB : Score := ⟨[zeroRest, evA, evB], "Piano", ("T", 1)⟩

def scoreAB : Score := ⟨[evA, evB], "Piano", ("T", 1)⟩

/-- Concrete ingestion jobs for the order-independence witness. -/
def jobA : SeedJob := ⟨"a", scoreABC, "Piano"⟩

def jobB : SeedJob := ⟨"b", scoreAB, "Whistle"⟩

/-! ## Lemmas about the nextnote upsert -/

theorem weightSum_nextnote_add (t : List NNRow) (ck : ChainKey) (n : NoteContent)
    (ck' : ChainKey) (n' : NoteContent) :
    weightSum (nextnote_add t ck n) ck' n'
      = weightSum t ck' n' + (if ck' = ck ∧ n' = n then 1 else 0) := by
  induction t with
  | nil =>
    by_cases h : ck' = ck ∧ n' = n
    · obtain ⟨h1, h2⟩ := h
      subst h1
      subst h2
      simp [nextnote_add, weightSum]
    · have h' : ¬(ck = ck' ∧ n = n') := fun hc => h ⟨hc.1.symm, hc.2.symm⟩
      simp [nextnote_add, weightSum, if_neg h, if_neg h']
  | cons r rs ih =>
    by_cases h : r.chain = ck ∧ r.note = n
    · obtain ⟨h1, h2⟩ := h
      by_cases h' : ck' = ck ∧ n' = n
      · obtain ⟨h1', h2'⟩ := h'
        subst h1'
        subst h2'
        simp only [nextnote_add, if_pos (And.intro h1 h2), weightSum]
        simp [h1, h2]
        omega
      · have hr : ¬(r.chain = ck' ∧ r.note = n') :=
          fun hc => h' ⟨hc.1.symm.trans h1, hc.2.symm.trans h2⟩
        have hk : ¬(ck = ck' ∧ n = n') := fun hc => h' ⟨hc.1.symm, hc.2.symm⟩
        simp only [nextnote_add, if_pos (And.intro h1 h2), weightSum]
        simp [if_neg hr, if_neg h', if_neg hk]
    · simp only [nextnote_add, if_neg h, weightSum, ih]
      omega

theorem rowCount_nextnote_add_self (t : List NNRow) (ck : ChainKey) (n : NoteContent) :
    rowCount (nextnote_add t ck n) ck n
      = if rowCount t ck n = 0 then 1 else rowCount t ck n := by
  induction t with
  | nil => simp [nextnote_add, rowCount]
  | cons r rs ih =>
    by_cases h : r.chain = ck ∧ r.note = n
    · obtain ⟨h1, h2⟩ := h
      simp only [nextnote_add, if_pos (And.intro h1 h2), rowCount]
      simp [h1, h2]
    · simp only [nextnote_add, if_neg h, rowCount, if_neg h, ih, Nat.zero_add]

theorem weightSum_eq_zero_of_rowCount_eq_zero (t : List NNRow) (ck : ChainKey)
    (n : NoteContent) (h : rowCount t ck n = 0) : weightSum t ck n = 0 := by
  induction t with
  | nil => rfl
  | cons r rs ih =>
    simp only [rowCount] at h
    simp only [weightSum]
    by_cases hr : r.chain = ck ∧ r.note = n
    · rw [if_pos hr] at h
      omega
    · rw [if_neg hr] at h ⊢
      simp only [Nat.zero_add] at h
      simp [ih h]

theorem rowCount_addN (N : Nat) (t : List NNRow) (ck : ChainKey) (n : NoteContent)
    (h : rowCount t ck n = 0) (hN : 1 ≤ N) :
    rowCount (nextnote_addN N t ck n) ck n = 1 := by
  induction N with
  | zero => omega
  | succ k ih =>
    simp only [nextnote_addN, rowCount_nextnote_add_self]
    rcases Nat.eq_zero_or_pos k with hk | hk
    · subst hk
      simp [nextnote_addN, h]
    · rw [ih hk]
      simp

theorem weightSum_addN (N : Nat) (t : List NNRow) (ck : ChainKey) (n : NoteContent)
    (h : weightSum t ck n = 0) :
    weightSum (nextnote_addN N t ck n) ck n = N := by
  induction N with
  | zero => exact h
  | succ k ih =>
    simp only [nextnote_addN, weightSum_nextnote_add, ih]
    simp


/-- Claim C1: repeated observation of the same (state, next-note) pair through
NextNote.add never creates a second edge: starting from a table with no row
for the pair, after N calls (N at least 1) there is exactly one nextnote row
for the pair, the weight after the first call is 1, and the weight after the
N-th call is N. -/
theorem claim_C1 (t : List NNRow) (ck : ChainKey) (n : NoteContent)
    (h0 : rowCount t ck n = 0) (N : Nat) (hN : 1 ≤ N) :
    rowCount (nextnote_addN N t ck n) ck n = 1
      ∧ weightSum (nextnote_addN 1 t ck n) ck n = 1
      ∧ weightSum (nextnote_addN N t ck n) ck n = N := by
  have hw := weightSum_eq_zero_of_rowCount_eq_zero t ck n h0
  exact ⟨rowCount_addN N t ck n h0 hN, weightSum_addN 1 t ck n hw, weightSum_addN N t ck n hw⟩

theorem claim_C1_witness :
    rowCount (nextnote_addN 3 [] (nullNote, nullNote) nullNote) (nullNote, nullNote) nullNote = 1
      ∧ weightSum (nextnote_addN 1 [] (nullNote, nullNote) nullNote) (nullNote, nullNote) nullNote = 1
      ∧ weightSum (nextnote_addN 3 [] (nullNote, nullNote) nullNote) (nullNote, nullNote) nullNote = 3 :=
  claim_C1 [] (nullNote, nullNote) nullNote (by decide) 3 (by decide)

/-- Claim C10: for every score with at least one note or rest, markovify_score
passes two positional arguments to Instrument.add, whose definition accepts
only one besides the class, so the call raises TypeError and ingestion never
reaches the note-and-transition loop through this path. -/
theorem claim_C10 (filepath : String) (score : Score) (default_instrument : String)
    (db : DB) (h : score.notesAndRests ≠ []) :
    markovify_score filepath score default_instrument db = .error .typeError := by
  obtain ⟨e, rest, hsc⟩ : ∃ e rest, score.notesAndRests = e :: rest := by
    cases hx : score.notesAndRests with
    | nil => exact absurd hx h
    | cons e rest => exact ⟨e, rest, rfl⟩
  simp [markovify_score, hsc, instrument_add_call]

theorem claim_C10_witness :
    markovify_score "score" ⟨[⟨some ("C", 4), 1⟩], "Piano", ("Allegro", 1)⟩ "Violoncello" initDB
      = .error .typeError :=
  claim_C10 "score" ⟨[⟨some ("C", 4), 1⟩], "Piano", ("Allegro", 1)⟩ "Violoncello" initDB
    (by decide)

/-! ## Lemmas for the generation claims -/

theorem countNote_append (l1 l2 : List NoteContent) (n : NoteContent) :
    countNote (l1 ++ l2) n = countNote l1 n + countNote l2 n := by
  induction l1 with
  | nil => simp [countNote]
  | cons x xs ih =>
    have hc : (x :: xs) ++ l2 = x :: (xs ++ l2) := rfl
    rw [hc]
    simp only [countNote]
    rw [ih]
    omega

theorem countNote_replicate (w : Nat) (m n : NoteContent) :
    countNote (List.replicate w m) n = if m = n then w else 0 := by
  induction w with
  | zero => simp [countNote]
  | succ k ih =>
    simp only [List.replicate_succ, countNote, ih]
    split_ifs <;> omega

theorem weightedChoices_length (choices : List (NoteContent × Nat)) :
    (weightedChoices choices).length = (choices.map Prod.snd).sum := by
  induction choices with
  | nil => rfl
  | cons p rest ih =>
    obtain ⟨m, w⟩ := p
    simp [weightedChoices, ih]

theorem countNote_weightedChoices_zero (choices : List (NoteContent × Nat)) (n : NoteContent)
    (h : n ∉ choices.map Prod.fst) :
    countNote (weightedChoices choices) n = 0 := by
  induction choices with
  | nil => rfl
  | cons p rest ih =>
    obtain ⟨m, w⟩ := p
    simp only [List.map_cons, List.mem_cons] at h
    push_neg at h
    simp only [weightedChoices, countNote_append, countNote_replicate]
    rw [if_neg (fun hmn => h.1 hmn.symm), ih h.2]

/-- Claim C6: the materialized choice list contains each candidate note
exactly its weight many times, so its length is the sum of the weights; the
draw picks uniformly over that list, hence with probability proportional to
weight. -/
theorem claim_C6 (choices : List (NoteContent × Nat)) (hnd : (choices.map Prod.fst).Nodup)
    (n : NoteContent) (w : Nat) (hmem : (n, w) ∈ choices) :
    (weightedChoices choices).length = (choices.map Prod.snd).sum
      ∧ countNote (weightedChoices choices) n = w := by
  refine ⟨weightedChoices_length choices, ?_⟩
  induction choices with
  | nil => cases hmem
  | cons p rest ih =>
    obtain ⟨m, w'⟩ := p
    simp only [List.map_cons, List.nodup_cons] at hnd
    rcases List.mem_cons.mp hmem with heq | hrest
    · have h1 : n = m := congrArg Prod.fst heq
      have h2 : w = w' := congrArg Prod.snd heq
      subst h1
      subst h2
      simp only [weightedChoices, countNote_append, countNote_replicate, if_pos rfl]
      rw [countNote_weightedChoices_zero rest n hnd.1]
      simp
    · have hn : n ∈ rest.map Prod.fst := List.mem_map.mpr ⟨(n, w), hrest, rfl⟩
      have hnm : ¬(m = n) := fun h => hnd.1 (h ▸ hn)
      simp only [weightedChoices, countNote_append, countNote_replicate, if_neg hnm,
        ih hnd.2 hrest]
      omega

theorem claim_C6_witness :
    (weightedChoices [(ncX, 3), (ncY, 1)]).length = ([(ncX, 3), (ncY, 1)].map Prod.snd).sum
      ∧ countNote (weightedChoices [(ncX, 3), (ncY, 1)]) ncX = 3 :=
  claim_C6 [(ncX, 3), (ncY, 1)] (by decide) ncX 3 (by decide)

theorem markovWalk_mem (fuel : Nat) :
    ∀ db ck rnd t acc x, x ∈ markovWalk fuel db ck rnd t acc →
      x ∈ acc ∨ classifyNext x = none := by
  induction fuel with
  | zero =>
    intro db ck rnd t acc x hx
    exact Or.inl hx
  | succ k ih =>
    intro db ck rnd t acc x hx
    simp only [markovWalk] at hx
    by_cases h1 : (noteChoices db ck).length = 0
    · rw [if_pos h1] at hx
      exact Or.inl hx
    · rw [if_neg h1] at hx
      by_cases h2 : (weightedChoices (noteChoices db ck)).length = 0
      · rw [if_pos h2] at hx
        exact Or.inl hx
      · rw [if_neg h2] at hx
        cases hc : classifyNext (drawNote db ck (rnd t)) with
        | some s =>
          rw [hc] at hx
          exact Or.inl hx
        | none =>
          rw [hc] at hx
          by_cases h3 : (ck.2, drawNote db ck (rnd t)) ∈ db.chains
          · rw [if_pos h3] at hx
            rcases ih db _ rnd (t + 1) _ x hx with hacc | hnone
            · rcases List.mem_append.mp hacc with ha | hb
              · exact Or.inl ha
              · rcases List.mem_singleton.mp hb with rfl
                exact Or.inr hc
            · exact Or.inr hnone
          · rw [if_neg h3] at hx
            rcases List.mem_append.mp hx with ha | hb
            · exact Or.inl ha
            · rcases List.mem_singleton.mp hb with rfl
              exact Or.inr hc

/-- Claim C5: a drawn note whose duration is at least 4 quarter notes stops
the walk whether pitched or a rest; the null note stops it too; and the walk
never appends a stopping note, so every note of the output beyond the notes
it started with classifies as a continuing note. -/
theorem claim_C5 :
    (∀ n d, n.quarter_notes = some d → 4 ≤ d → (classifyNext n).isSome = true)
      ∧ classifyNext nullNote = some WalkStop.endOfTune
      ∧ (∀ fuel db ck rnd t acc x, x ∈ markovWalk fuel db ck rnd t acc →
          x ∈ acc ∨ classifyNext x = none) := by
  refine ⟨?_, rfl, fun fuel => markovWalk_mem fuel⟩
  intro n d hd h4
  by_cases hn : n.note_name = none
  · simp [classifyNext, hd, hn, h4]
  · simp [classifyNext, hd, hn, h4]

theorem claim_C5_witness :
    (classifyNext ⟨some "C", some 4, some 4⟩).isSome = true
      ∧ (nullNote ∈ ([nullNote] : List NoteContent) ∨ classifyNext nullNote = none) :=
  ⟨claim_C5.1 ⟨some "C", some 4, some 4⟩ 4 rfl (by decide),
   claim_C5.2.2 0 emptyDB (nullNote, nullNote) (fun _ => 0) 0 [nullNote] nullNote (by decide)⟩

/-- Claim C7 as stated is false: on disjoint instrument sets the selector
raises the builtin KeyError from set.pop — an unhandled fault — not a typed
NoCommonInstrument error.  Concretely, with note ncX only in a Piano tune and
note ncY only in a Flute tune, the intersection is empty and the result is
KeyError. -/
theorem claim_C7_cex :
    get_common_m21_instrument
        { emptyDB with
          tunes := [⟨"t1", ("T", 1), "Piano"⟩, ⟨"t2", ("T", 1), "Flute"⟩],
          tunenotes := [⟨0, ncX, 0⟩, ⟨1, ncY, 0⟩] } ncX ncY = .error .keyError
      ∧ PyErr.keyError ≠ PyErr.noCommonInstrument :=
  ⟨rfl, by decide⟩

/-- Claim C7 amended: the selector returns an element of both notes'
instrument sets whenever it succeeds, returns the unique element
deterministically when the intersection is a singleton, and on disjoint sets
fails with the builtin KeyError raised by set.pop rather than a typed
NoCommonInstrument error. -/
theorem claim_C7 (db : DB) (a b : NoteContent) :
    (∀ i, get_common_m21_instrument db a b = .ok i → i ∈ instSet db a ∧ i ∈ instSet db b)
      ∧ (commonList db a b = [] → get_common_m21_instrument db a b = .error .keyError)
      ∧ (∀ i, commonList db a b = [i] → get_common_m21_instrument db a b = .ok i) := by
  refine ⟨?_, ?_, ?_⟩
  · intro i hi
    cases hc : commonList db a b with
    | nil =>
      rw [get_common_m21_instrument, hc] at hi
      cases hi
    | cons j rest =>
      rw [get_common_m21_instrument, hc] at hi
      have hij : j = i := by
        cases hi
        rfl
      subst hij
      have hjc : j ∈ commonList db a b := by
        rw [hc]
        exact List.mem_cons_self j rest
      have hjf := List.mem_filter.mp hjc
      exact ⟨hjf.1, of_decide_eq_true hjf.2⟩
  · intro hc
    rw [get_common_m21_instrument, hc]
  · intro i hc
    rw [get_common_m21_instrument, hc]

theorem claim_C7_witness :
    get_common_m21_instrument violinDB ncX ncY = .ok "Violin"
      ∧ "Violin" ∈ instSet violinDB ncX ∧ "Violin" ∈ instSet violinDB ncY :=
  ⟨(claim_C7 violinDB ncX ncY).2.2 "Violin" (by decide),
   (claim_C7 violinDB ncX ncY).1 "Violin"
     ((claim_C7 violinDB ncX ncY).2.2 "Violin" (by decide))⟩

/-- Claim C8 as stated is false: with zero chains make_markov raises the
builtin ValueError from random.randint(1, 0), not a typed EmptyGraph error. -/
theorem claim_C8_cex :
    make_markov emptyDB 0 (fun _ => 0) 5 = .error .valueError
      ∧ PyErr.valueError ≠ PyErr.emptyGraph :=
  ⟨rfl, by decide⟩

/-- Claim C8 amended: when the graph has zero States, make_markov fails
before producing any note — but with the unhandled builtin ValueError raised
by random.randint on an empty range, not a typed EmptyGraph error. -/
theorem claim_C8 (db : DB) (startPick : Nat) (rnd : Nat → Nat) (fuel : Nat)
    (h : db.chains = []) :
    make_markov db startPick rnd fuel = .error .valueError := by
  simp [make_markov, h]

theorem claim_C8_witness :
    make_markov emptyDB 1 (fun k => k) 7 = .error .valueError :=
  claim_C8 emptyDB 1 (fun k => k) 7 rfl

/-! ## Table-projection facts for the ingestion operations -/

@[simp] theorem chain_add_nextnotes (a b : NoteContent) (db : DB) :
    (chain_add a b db).nextnotes = db.nextnotes := rfl

@[simp] theorem chain_add_notes (a b : NoteContent) (db : DB) :
    (chain_add a b db).notes = db.notes := rfl

@[simp] theorem chain_add_durations (a b : NoteContent) (db : DB) :
    (chain_add a b db).durations = db.durations := rfl

@[simp] theorem chain_add_tunenotes (a b : NoteContent) (db : DB) :
    (chain_add a b db).tunenotes = db.tunenotes := rfl

@[simp] theorem chain_add_chains (a b : NoteContent) (db : DB) :
    (chain_add a b db).chains = listUpsert db.chains (a, b) := rfl

@[simp] theorem note_add_nextnotes (e : M21Event) (t i : Nat) (db : DB) :
    (note_add e t i db).nextnotes = db.nextnotes := rfl

@[simp] theorem note_add_chains (e : M21Event) (t i : Nat) (db : DB) :
    (note_add e t i db).chains = db.chains := rfl

@[simp] theorem note_add_tunenotes (e : M21Event) (t i : Nat) (db : DB) :
    (note_add e t i db).tunenotes = db.tunenotes := rfl

@[simp] theorem note_add_notes (e : M21Event) (t i : Nat) (db : DB) :
    (note_add e t i db).notes = listUpsert db.notes (noteContentOf e) := rfl

@[simp] theorem note_add_durations (e : M21Event) (t i : Nat) (db : DB) :
    (note_add e t i db).durations = listUpsert db.durations e.quarterLength := rfl

@[simp] theorem tempo_add_nextnotes (t : String × ℚ) (db : DB) :
    (tempo_add t db).nextnotes = db.nextnotes := rfl

@[simp] theorem tempo_add_notes (t : String × ℚ) (db : DB) :
    (tempo_add t db).notes = db.notes := rfl

@[simp] theorem tempo_add_durations (t : String × ℚ) (db : DB) :
    (tempo_add t db).durations = db.durations := rfl

@[simp] theorem tempo_add_chains (t : String × ℚ) (db : DB) :
    (tempo_add t db).chains = db.chains := rfl

@[simp] theorem tempo_add_tunenotes (t : String × ℚ) (db : DB) :
    (tempo_add t db).tunenotes = db.tunenotes := rfl

@[simp] theorem instrument_add_nextnotes (s : String) (db : DB) :
    (instrument_add s db).nextnotes = db.nextnotes := rfl

@[simp] theorem instrument_add_notes (s : String) (db : DB) :
    (instrument_add s db).notes = db.notes := rfl

@[simp] theorem instrument_add_durations (s : String) (db : DB) :
    (instrument_add s db).durations = db.durations := rfl

@[simp] theorem instrument_add_chains (s : String) (db : DB) :
    (instrument_add s db).chains = db.chains := rfl

@[simp] theorem instrument_add_tunenotes (s : String) (db : DB) :
    (instrument_add s db).tunenotes = db.tunenotes := rfl

@[simp] theorem tune_add_nextnotes (name : String) (t : String × ℚ) (inst : String) (db : DB) :
    (tune_add name t inst db).nextnotes = db.nextnotes := rfl

@[simp] theorem tune_add_notes (name : String) (t : String × ℚ) (inst : String) (db : DB) :
    (tune_add name t inst db).notes = db.notes := rfl

@[simp] theorem tune_add_durations (name : String) (t : String × ℚ) (inst : String) (db : DB) :
    (tune_add name t inst db).durations = db.durations := rfl

@[simp] theorem tune_add_chains (name : String) (t : String × ℚ) (inst : String) (db : DB) :
    (tune_add name t inst db).chains = db.chains := rfl

@[simp] theorem tune_add_tunenotes (name : String) (t : String × ℚ) (inst : String) (db : DB) :
    (tune_add name t inst db).tunenotes = db.tunenotes := rfl

theorem mem_listUpsert {α : Type} [DecidableEq α] (l : List α) (y x : α) :
    x ∈ listUpsert l y ↔ x ∈ l ∨ x = y := by
  unfold listUpsert
  by_cases h : y ∈ l
  · rw [if_pos h]
    constructor
    · exact Or.inl
    · rintro (hx | rfl)
      · exact hx
      · exact h
  · rw [if_neg h]
    simp [List.mem_append]

/-! ## What the markovification loop does to each table -/

theorem markovLoop_tunenotes (rest : List M21Event) :
    ∀ tuneIdx a b i db, (markovLoop tuneIdx rest a b i db).tunenotes = db.tunenotes := by
  induction rest with
  | nil =>
    intro tuneIdx a b i db
    rfl
  | cons e r ih =>
    intro tuneIdx a b i db
    by_cases hz : e.quarterLength = 0
    · simp only [markovLoop, if_pos hz]
      exact ih tuneIdx a b (i + 1) db
    · simp only [markovLoop, if_neg hz]
      rw [ih]
      rfl

theorem markovLoop_weight (rest : List M21Event) :
    ∀ tuneIdx a b i db ck n,
      weightSum (markovLoop tuneIdx rest a b i db).nextnotes ck n
        = weightSum db.nextnotes ck n
            + countPair (obsAux a b ((survivors rest).map noteContentOf)) ck n := by
  induction rest with
  | nil =>
    intro tuneIdx a b i db ck n
    simp only [markovLoop, survivors, List.map_nil, obsAux, countPair]
    rw [weightSum_nextnote_add]
    simp
  | cons e r ih =>
    intro tuneIdx a b i db ck n
    by_cases hz : e.quarterLength = 0
    · simp only [markovLoop, if_pos hz, survivors, ih]
    · simp only [markovLoop, if_neg hz, survivors]
      rw [ih]
      simp only [note_add_nextnotes, chain_add_nextnotes, weightSum_nextnote_add,
        List.map_cons, obsAux, countPair]
      omega

theorem markovLoop_state (rest : List M21Event) :
    ∀ tuneIdx a b i db ck,
      ck ∈ (markovLoop tuneIdx rest a b i db).chains
        ↔ ck ∈ db.chains
            ∨ ck ∈ (obsAux a b ((survivors rest).map noteContentOf)).map Prod.fst := by
  induction rest with
  | nil =>
    intro tuneIdx a b i db ck
    simp only [markovLoop, survivors, List.map_nil, obsAux, List.map_cons, List.map_nil]
    simp [chain_add, mem_listUpsert]
  | cons e r ih =>
    intro tuneIdx a b i db ck
    by_cases hz : e.quarterLength = 0
    · simp only [markovLoop, if_pos hz, survivors, ih]
    · simp only [markovLoop, if_neg hz, survivors, List.map_cons]
      rw [ih]
      simp only [note_add_chains, chain_add_chains, mem_listUpsert, obsAux, List.map_cons,
        List.mem_cons]
      tauto

theorem markovLoop_note (rest : List M21Event) :
    ∀ tuneIdx a b i db x,
      x ∈ (markovLoop tuneIdx rest a b i db).notes
        ↔ x ∈ db.notes ∨ x ∈ (survivors rest).map noteContentOf := by
  induction rest with
  | nil =>
    intro tuneIdx a b i db x
    simp only [markovLoop, survivors, List.map_nil]
    simp
  | cons e r ih =>
    intro tuneIdx a b i db x
    by_cases hz : e.quarterLength = 0
    · simp only [markovLoop, if_pos hz, survivors, ih]
    · simp only [markovLoop, if_neg hz, survivors, List.map_cons]
      rw [ih]
      simp only [note_add_notes, chain_add_notes, mem_listUpsert, List.mem_cons]
      tauto

theorem markovLoop_dur (rest : List M21Event) :
    ∀ tuneIdx a b i db q,
      q ∈ (markovLoop tuneIdx rest a b i db).durations
        ↔ q ∈ db.durations ∨ q ∈ (survivors rest).map M21Event.quarterLength := by
  induction rest with
  | nil =>
    intro tuneIdx a b i db q
    simp only [markovLoop, survivors, List.map_nil]
    simp
  | cons e r ih =>
    intro tuneIdx a b i db q
    by_cases hz : e.quarterLength = 0
    · simp only [markovLoop, if_pos hz, survivors, ih]
    · simp only [markovLoop, if_neg hz, survivors, List.map_cons]
      rw [ih]
      simp only [note_add_durations, chain_add_durations, mem_listUpsert, List.mem_cons]
      tauto

/-! ## What one markovify_body run does to the graph -/

theorem markovify_body_ok (f : String) (sc : Score) (iN : String) (db : DB)
    (h : sc.notesAndRests.length ≠ 1) :
    markovify_body f sc iN db = .ok (getOk (markovify_body f sc iN db) db) := by
  rcases hsc : sc.notesAndRests with _ | ⟨e0, _ | ⟨e1, rest⟩⟩
  · simp [markovify_body, hsc, getOk]
  · rw [hsc] at h
    simp at h
  · simp [markovify_body, hsc, getOk]

theorem markovify_body_tunenotes (f : String) (sc : Score) (iN : String) (db : DB) :
    (getOk (markovify_body f sc iN db) db).tunenotes = db.tunenotes := by
  rcases hsc : sc.notesAndRests with _ | ⟨e0, _ | ⟨e1, rest⟩⟩
  · simp [markovify_body, hsc, getOk]
  · simp [markovify_body, hsc, getOk]
  · simp [markovify_body, hsc, getOk]
    rw [markovLoop_tunenotes]
    simp

theorem markovify_body_weight (f : String) (sc : Score) (iN : String) (db : DB)
    (h : sc.notesAndRests.length ≠ 1) (ck : ChainKey) (n : NoteContent) :
    weightSum (getOk (markovify_body f sc iN db) db).nextnotes ck n
      = weightSum db.nextnotes ck n + countPair (scoreObs sc) ck n := by
  rcases hsc : sc.notesAndRests with _ | ⟨e0, _ | ⟨e1, rest⟩⟩
  · simp [markovify_body, hsc, getOk, scoreObs, countPair]
  · rw [hsc] at h
    simp at h
  · simp only [markovify_body, hsc, List.length_cons, getOk]
    norm_num
    rw [markovLoop_weight]
    simp [scoreObs, hsc]

theorem markovify_body_note (f : String) (sc : Score) (iN : String) (db : DB)
    (h : sc.notesAndRests.length ≠ 1) (x : NoteContent) :
    x ∈ (getOk (markovify_body f sc iN db) db).notes
      ↔ x ∈ db.notes ∨ x ∈ scoreNotes sc := by
  rcases hsc : sc.notesAndRests with _ | ⟨e0, _ | ⟨e1, rest⟩⟩
  · simp [markovify_body, hsc, getOk, scoreNotes]
  · rw [hsc] at h
    simp at h
  · simp only [markovify_body, hsc, List.length_cons, getOk]
    norm_num
    rw [markovLoop_note]
    simp only [note_add_notes, chain_add_notes, tune_add_notes, instrument_add_notes,
      tempo_add_notes, mem_listUpsert, scoreNotes, hsc, List.mem_cons]
    tauto

theorem markovify_body_dur (f : String) (sc : Score) (iN : String) (db : DB)
    (h : sc.notesAndRests.length ≠ 1) (q : ℚ) :
    q ∈ (getOk (markovify_body f sc iN db) db).durations
      ↔ q ∈ db.durations ∨ q ∈ scoreDurs sc := by
  rcases hsc : sc.notesAndRests with _ | ⟨e0, _ | ⟨e1, rest⟩⟩
  · simp [markovify_body, hsc, getOk, scoreDurs]
  · rw [hsc] at h
    simp at h
  · simp only [markovify_body, hsc, List.length_cons, getOk]
    norm_num
    rw [markovLoop_dur]
    simp only [note_add_durations, chain_add_durations, tune_add_durations,
      instrument_add_durations, tempo_add_durations, mem_listUpsert, scoreDurs, hsc,
      List.mem_cons]
    tauto

theorem markovify_body_state (f : String) (sc : Score) (iN : String) (db : DB)
    (h : sc.notesAndRests.length ≠ 1) (ck : ChainKey) :
    ck ∈ (getOk (markovify_body f sc iN db) db).chains
      ↔ ck ∈ db.chains ∨ ck ∈ (scoreObs sc).map Prod.fst := by
  rcases hsc : sc.notesAndRests with _ | ⟨e0, _ | ⟨e1, rest⟩⟩
  · simp [markovify_body, hsc, getOk, scoreObs]
  · rw [hsc] at h
    simp at h
  · simp only [markovify_body, hsc, List.length_cons, getOk]
    norm_num
    rw [markovLoop_state]
    simp only [note_add_chains, chain_add_chains, tune_add_chains, instrument_add_chains,
      tempo_add_chains, scoreObs, hsc]
    constructor
    · rintro (hdb | hmem)
      · exact Or.inl hdb
      · obtain ⟨p, hp, he⟩ := List.mem_map.mp hmem
        refine Or.inr ⟨p.2, ?_⟩
        have hpe : (ck, p.2) = p := by
          rw [← he]
        rw [hpe]
        exact hp
    · rintro (hdb | ⟨x, hx⟩)
      · exact Or.inl hdb
      · exact Or.inr (List.mem_map.mpr ⟨(ck, x), hx, rfl⟩)

/-! ## Graph-level equality and the skip behavior -/

theorem graphView_eq (g1 g2 : GraphView) (hn : ∀ n, g1.note n ↔ g2.note n)
    (hd : ∀ q, g1.dur q ↔ g2.dur q) (hs : ∀ ck, g1.state ck ↔ g2.state ck)
    (hw : ∀ ck n, g1.weight ck n = g2.weight ck n) : g1 = g2 := by
  obtain ⟨n1, d1, s1, w1⟩ := g1
  obtain ⟨n2, d2, s2, w2⟩ := g2
  simp only [GraphView.mk.injEq]
  exact ⟨funext fun n => propext (hn n), funext fun q => propext (hd q),
    funext fun ck => propext (hs ck), funext fun ck => funext fun n => hw ck n⟩

theorem survivors_append_zero (z : M21Event) (hz : z.quarterLength = 0)
    (mid post : List M21Event) :
    survivors (mid ++ z :: post) = survivors (mid ++ post) := by
  induction mid with
  | nil => simp [survivors, hz]
  | cons e r ih =>
    by_cases he : e.quarterLength = 0
    · simp [survivors, he, ih]
    · simp [survivors, he, ih]

/-- Claim C2 as stated is false: the skip applies only from the third event
on.  A zero-duration event in the first position is ingested: it becomes a
Note row and part of the initial state, so the graph differs from the graph
of the sequence with that event removed. -/
theorem claim_C2_cex :
    (noteContentOf zeroRest, noteContentOf evA)
        ∈ (getOk (markovify_body "s" scoreZAB "Piano" initDB) initDB).chains
      ∧ (noteContentOf zeroRest, noteContentOf evA)
          ∉ (getOk (markovify_body "s" scoreAB "Piano" initDB) initDB).chains
      ∧ noteContentOf zeroRest ∈ (getOk (markovify_body "s" scoreZAB "Piano" initDB) initDB).notes := by
  decide

/-- Claim C2 amended: only events from the third position on are subject to
the zero-duration skip.  For those, a zero-duration event is skipped
entirely — no Note, Duration, State or Transition — and the Markov graph
(notes, durations, states, transition weights) equals that of the same
sequence with the event removed.  Zero-duration events in the first two
positions are not skipped: they are ingested as part of the initial pair. -/
theorem claim_C2 (filepath instName instSc : String) (tmp : String × ℚ)
    (e0 e1 z : M21Event) (mid post : List M21Event) (db : DB)
    (hz : z.quarterLength = 0) :
    DB.graphView (getOk (markovify_body filepath
        ⟨e0 :: e1 :: (mid ++ z :: post), instSc, tmp⟩ instName db) db)
      = DB.graphView (getOk (markovify_body filepath
          ⟨e0 :: e1 :: (mid ++ post), instSc, tmp⟩ instName db) db) := by
  have h1 : (⟨e0 :: e1 :: (mid ++ z :: post), instSc, tmp⟩ : Score).notesAndRests.length ≠ 1 := by
    simp
  have h2 : (⟨e0 :: e1 :: (mid ++ post), instSc, tmp⟩ : Score).notesAndRests.length ≠ 1 := by
    simp
  have hsurv := survivors_append_zero z hz mid post
  apply graphView_eq
  · intro x
    simp only [DB.graphView]
    rw [markovify_body_note _ _ _ _ h1 x, markovify_body_note _ _ _ _ h2 x]
    simp [scoreNotes, hsurv]
  · intro q
    simp only [DB.graphView]
    rw [markovify_body_dur _ _ _ _ h1 q, markovify_body_dur _ _ _ _ h2 q]
    simp [scoreDurs, hsurv]
  · intro ck
    simp only [DB.graphView]
    rw [markovify_body_state _ _ _ _ h1 ck, markovify_body_state _ _ _ _ h2 ck]
    simp [scoreObs, hsurv]
  · intro ck n
    simp only [DB.graphView]
    rw [markovify_body_weight _ _ _ _ h1 ck n, markovify_body_weight _ _ _ _ h2 ck n]
    simp [scoreObs, hsurv]

theorem claim_C2_witness :
    DB.graphView (getOk (markovify_body "f"
        ⟨evA :: evB :: ([] ++ zeroRest :: [evC]), "P", ("T", 1)⟩ "P" initDB) initDB)
      = DB.graphView (getOk (markovify_body "f"
          ⟨evA :: evB :: ([] ++ [evC]), "P", ("T", 1)⟩ "P" initDB) initDB) :=
  claim_C2 "f" "P" "P" ("T", 1) evA evB zeroRest [] [evC] initDB rfl

/-- Claim C3: after the loop exactly one additional transition is registered,
from the last (note_a, note_b) state to the null note, incrementing its weight
if the edge exists and touching no other edge; and ingesting the three-event
sequence A, B, C into the fresh database yields exactly the two transitions
(A, B) to C with weight 1 and (B, C) to the null note with weight 1. -/
theorem claim_C3 :
    (∀ tuneIdx a b i db ck n,
        weightSum (markovLoop tuneIdx [] a b i db).nextnotes ck n
          = weightSum db.nextnotes ck n + (if ck = (a, b) ∧ n = nullNote then 1 else 0))
      ∧ (getOk (markovify_body "f" scoreABC "Piano" initDB) initDB).nextnotes
          = [⟨(noteContentOf evA, noteContentOf evB), noteContentOf evC, 1⟩,
             ⟨(noteContentOf evB, noteContentOf evC), nullNote, 1⟩] := by
  constructor
  · intro tuneIdx a b i db ck n
    rw [markovLoop_weight]
    simp [survivors, obsAux, countPair]
  · decide

/-- Claim C4 is a code bug: Note.add's docstring says it adds the note to the
tune, but model.py line 120 builds the TuneNote row without db.session.add,
so no tune-membership row is ever persisted: ingestion leaves the tunenotes
table exactly as it was, and on the concrete A, B, C ingestion from the fresh
database it stays empty. -/
theorem claim_C4 :
    (∀ f sc iN db, (getOk (markovify_body f sc iN db) db).tunenotes = db.tunenotes)
      ∧ (getOk (markovify_body "f" scoreABC "Piano" initDB) initDB).tunenotes = [] := by
  constructor
  · intro f sc iN db
    exact markovify_body_tunenotes f sc iN db
  · exact (markovify_body_tunenotes "f" scoreABC "Piano" initDB).trans rfl

/-! ## Folding many ingestions and order independence -/

theorem existsMemCons {α : Type} (a : α) (l : List α) (p : α → Prop) :
    (∃ x ∈ a :: l, p x) ↔ p a ∨ ∃ x ∈ l, p x := by
  constructor
  · rintro ⟨x, hx, hp⟩
    rcases List.mem_cons.mp hx with rfl | hmem
    · exact Or.inl hp
    · exact Or.inr ⟨x, hmem, hp⟩
  · rintro (hp | ⟨x, hmem, hp⟩)
    · exact ⟨a, List.mem_cons_self a l, hp⟩
    · exact ⟨x, List.mem_cons_of_mem a hmem, hp⟩

theorem ingest_scores_ok (jobs : List SeedJob) :
    ∀ db, (∀ j ∈ jobs, j.score.notesAndRests.length ≠ 1) →
      ingest_scores jobs db = .ok (getOk (ingest_scores jobs db) db) := by
  induction jobs with
  | nil =>
    intro db h
    rfl
  | cons j js ih =>
    intro db h
    have hj : j.score.notesAndRests.length ≠ 1 := h j (List.mem_cons_self j js)
    have h' : ∀ j' ∈ js, j'.score.notesAndRests.length ≠ 1 :=
      fun j' hj' => h j' (List.mem_cons_of_mem j hj')
    have hrun : runJob j db = .ok (getOk (runJob j db) db) :=
      markovify_body_ok j.filepath j.score j.inst db hj
    simp only [ingest_scores]
    rw [hrun]
    dsimp only
    rw [ih (getOk (runJob j db) db) h']
    dsimp only [getOk]

theorem ingest_scores_cons_ok (j : SeedJob) (js : List SeedJob) (db : DB)
    (hj : j.score.notesAndRests.length ≠ 1) :
    ingest_scores (j :: js) db = ingest_scores js (getOk (runJob j db) db) := by
  have hrun : runJob j db = .ok (getOk (runJob j db) db) :=
    markovify_body_ok j.filepath j.score j.inst db hj
  simp only [ingest_scores]
  rw [hrun]
  rfl

theorem getOk_ok_fallback (js : List SeedJob) (dbX db : DB)
    (h : ∀ j ∈ js, j.score.notesAndRests.length ≠ 1) :
    getOk (ingest_scores js dbX) db = getOk (ingest_scores js dbX) dbX := by
  rw [ingest_scores_ok js dbX h]
  rfl

theorem ingest_scores_weight (jobs : List SeedJob) :
    ∀ db, (∀ j ∈ jobs, j.score.notesAndRests.length ≠ 1) → ∀ ck n,
      weightSum (getOk (ingest_scores jobs db) db).nextnotes ck n
        = weightSum db.nextnotes ck n
            + (jobs.map (fun j => countPair (scoreObs j.score) ck n)).sum := by
  induction jobs with
  | nil =>
    intro db h ck n
    simp [ingest_scores, getOk]
  | cons j js ih =>
    intro db h ck n
    have hj : j.score.notesAndRests.length ≠ 1 := h j (List.mem_cons_self j js)
    have h' : ∀ j' ∈ js, j'.score.notesAndRests.length ≠ 1 :=
      fun j' hj' => h j' (List.mem_cons_of_mem j hj')
    have hbw : weightSum (getOk (runJob j db) db).nextnotes ck n
        = weightSum db.nextnotes ck n + countPair (scoreObs j.score) ck n :=
      markovify_body_weight j.filepath j.score j.inst db hj ck n
    rw [ingest_scores_cons_ok j js db hj,
      getOk_ok_fallback js (getOk (runJob j db) db) db h']
    rw [ih (getOk (runJob j db) db) h' ck n, hbw]
    simp only [List.map_cons, List.sum_cons]
    omega

theorem ingest_scores_note (jobs : List SeedJob) :
    ∀ db, (∀ j ∈ jobs, j.score.notesAndRests.length ≠ 1) → ∀ x,
      (x ∈ (getOk (ingest_scores jobs db) db).notes
        ↔ x ∈ db.notes ∨ ∃ j ∈ jobs, x ∈ scoreNotes j.score) := by
  induction jobs with
  | nil =>
    intro db h x
    simp [ingest_scores, getOk]
  | cons j js ih =>
    intro db h x
    have hj : j.score.notesAndRests.length ≠ 1 := h j (List.mem_cons_self j js)
    have h' : ∀ j' ∈ js, j'.score.notesAndRests.length ≠ 1 :=
      fun j' hj' => h j' (List.mem_cons_of_mem j hj')
    have hb : x ∈ (getOk (runJob j db) db).notes ↔ x ∈ db.notes ∨ x ∈ scoreNotes j.score :=
      markovify_body_note j.filepath j.score j.inst db hj x
    rw [ingest_scores_cons_ok j js db hj,
      getOk_ok_fallback js (getOk (runJob j db) db) db h']
    rw [ih (getOk (runJob j db) db) h' x, hb, existsMemCons]
    tauto

theorem ingest_scores_dur (jobs : List SeedJob) :
    ∀ db, (∀ j ∈ jobs, j.score.notesAndRests.length ≠ 1) → ∀ q,
      (q ∈ (getOk (ingest_scores jobs db) db).durations
        ↔ q ∈ db.durations ∨ ∃ j ∈ jobs, q ∈ scoreDurs j.score) := by
  induction jobs with
  | nil =>
    intro db h q
    simp [ingest_scores, getOk]
  | cons j js ih =>
    intro db h q
    have hj : j.score.notesAndRests.length ≠ 1 := h j (List.mem_cons_self j js)
    have h' : ∀ j' ∈ js, j'.score.notesAndRests.length ≠ 1 :=
      fun j' hj' => h j' (List.mem_cons_of_mem j hj')
    have hb : q ∈ (getOk (runJob j db) db).durations ↔ q ∈ db.durations ∨ q ∈ scoreDurs j.score :=
      markovify_body_dur j.filepath j.score j.inst db hj q
    rw [ingest_scores_cons_ok j js db hj,
      getOk_ok_fallback js (getOk (runJob j db) db) db h']
    rw [ih (getOk (runJob j db) db) h' q, hb, existsMemCons]
    tauto

theorem ingest_scores_state (jobs : List SeedJob) :
    ∀ db, (∀ j ∈ jobs, j.score.notesAndRests.length ≠ 1) → ∀ ck,
      (ck ∈ (getOk (ingest_scores jobs db) db).chains
        ↔ ck ∈ db.chains ∨ ∃ j ∈ jobs, ck ∈ (scoreObs j.score).map Prod.fst) := by
  induction jobs with
  | nil =>
    intro db h ck
    simp [ingest_scores, getOk]
  | cons j js ih =>
    intro db h ck
    have hj : j.score.notesAndRests.length ≠ 1 := h j (List.mem_cons_self j js)
    have h' : ∀ j' ∈ js, j'.score.notesAndRests.length ≠ 1 :=
      fun j' hj' => h j' (List.mem_cons_of_mem j hj')
    have hb : ck ∈ (getOk (runJob j db) db).chains ↔ ck ∈ db.chains ∨ ck ∈ (scoreObs j.score).map Prod.fst :=
      markovify_body_state j.filepath j.score j.inst db hj ck
    rw [ingest_scores_cons_ok j js db hj,
      getOk_ok_fallback js (getOk (runJob j db) db) db h']
    rw [ih (getOk (runJob j db) db) h' ck, hb, existsMemCons]
    tauto

/-- Claim C9: ingestion is order independent.  For any two ingestion orders
of the same finite collection of scores (each with a well-defined ingestion,
i.e. not exactly one event, on which the source would crash before its
commit), the resulting Markov graph — notes, durations, states, and
transition weights — is the same, because it depends only on the multiset of
(state, next) observations. -/
theorem claim_C9 (jobs1 jobs2 : List SeedJob) (hperm : jobs1.Perm jobs2)
    (h : ∀ j ∈ jobs1, j.score.notesAndRests.length ≠ 1) (db : DB) :
    DB.graphView (getOk (ingest_scores jobs1 db) db)
      = DB.graphView (getOk (ingest_scores jobs2 db) db) := by
  have h2 : ∀ j ∈ jobs2, j.score.notesAndRests.length ≠ 1 :=
    fun j hj => h j (hperm.mem_iff.mpr hj)
  apply graphView_eq
  · intro x
    simp only [DB.graphView]
    rw [ingest_scores_note jobs1 db h x, ingest_scores_note jobs2 db h2 x]
    have hiff : (∃ j ∈ jobs1, x ∈ scoreNotes j.score) ↔ ∃ j ∈ jobs2, x ∈ scoreNotes j.score := by
      constructor
      · rintro ⟨j, hj, hx⟩
        exact ⟨j, hperm.mem_iff.mp hj, hx⟩
      · rintro ⟨j, hj, hx⟩
        exact ⟨j, hperm.mem_iff.mpr hj, hx⟩
    rw [hiff]
  · intro q
    simp only [DB.graphView]
    rw [ingest_scores_dur jobs1 db h q, ingest_scores_dur jobs2 db h2 q]
    have hiff : (∃ j ∈ jobs1, q ∈ scoreDurs j.score) ↔ ∃ j ∈ jobs2, q ∈ scoreDurs j.score := by
      constructor
      · rintro ⟨j, hj, hx⟩
        exact ⟨j, hperm.mem_iff.mp hj, hx⟩
      · rintro ⟨j, hj, hx⟩
        exact ⟨j, hperm.mem_iff.mpr hj, hx⟩
    rw [hiff]
  · intro ck
    simp only [DB.graphView]
    rw [ingest_scores_state jobs1 db h ck, ingest_scores_state jobs2 db h2 ck]
    have hiff : (∃ j ∈ jobs1, ck ∈ (scoreObs j.score).map Prod.fst)
        ↔ ∃ j ∈ jobs2, ck ∈ (scoreObs j.score).map Prod.fst := by
      constructor
      · rintro ⟨j, hj, hx⟩
        exact ⟨j, hperm.mem_iff.mp hj, hx⟩
      · rintro ⟨j, hj, hx⟩
        exact ⟨j, hperm.mem_iff.mpr hj, hx⟩
    rw [hiff]
  · intro ck n
    simp only [DB.graphView]
    rw [ingest_scores_weight jobs1 db h ck n, ingest_scores_weight jobs2 db h2 ck n]
    rw [List.Perm.sum_eq (hperm.map (fun j => countPair (scoreObs j.score) ck n))]

theorem claim_C9_witness :
    DB.graphView (getOk (ingest_scores [jobA, jobB] initDB) initDB)
      = DB.graphView (getOk (ingest_scores [jobB, jobA] initDB) initDB) :=
  claim_C9 [jobA, jobB] [jobB, jobA] (by decide) (by decide) initDB
